import Mathlib

/-!
Shallow embedding of `scrape_bits.py` (a crawler for a treaty catalog) and
verification of the behavioural properties of its pure core: date parsing,
party splitting, retry/backoff, row extraction by `data-index` markers,
country-discovery strategies, deduplication, and checkpoint round-trips.

Python strings are modelled as Lean `String` (logically a list of `Char`),
Python dicts of strings as ordered association lists, and the stateful parts
(retry loops, filesystem checkpoints) as explicit state passing.
-/

namespace ScrapeBits

/-! ### Python string primitives -/

/-- Characters removed by Python's `str.strip()` (ASCII whitespace). -/
def isPySpace (c : Char) : Bool :=
  c = ' ' || c = '\t' || c = '\n' || c = '\x0d' || c = '\x0b' || c = '\x0c'

/-- `str.strip()` on a character list: drop leading and trailing whitespace. -/
def pyStripL (l : List Char) : List Char :=
  ((l.dropWhile isPySpace).reverse.dropWhile isPySpace).reverse

/-- `str.strip()` on a string. -/
def pyStrip (s : String) : String := ⟨pyStripL s.data⟩

/-- `str.lower()` (ASCII case folding, as used by the script's keys). -/
def pyLower (s : String) : String := ⟨s.data.map Char.toLower⟩

/-! ### Python dicts of strings as ordered association lists -/

/-- A scraped record: a Python dict with string keys and string values,
modelled as an insertion-ordered association list with unique keys. -/
abbrev Item := List (String × String)

/-- `d[k]` lookup returning `none` when the key is absent (first binding wins;
the building functions never create duplicate keys). -/
def dictGet (t : Item) (k : String) : Option String :=
  match t with
  | [] => none
  | (k0, v0) :: rest => if k0 = k then some v0 else dictGet rest k

/-- Python `d.get(k, default)`. -/
def dictGetD (t : Item) (k d : String) : String := (dictGet t k).getD d

/-- Python `d[k] = v`: overwrite in place if present, else append. -/
def dictInsert (t : Item) (k v : String) : Item :=
  match t with
  | [] => [(k, v)]
  | (k0, v0) :: rest => if k0 = k then (k0, v) :: rest else (k0, v0) :: dictInsert rest k v

/-! ### `parse_date` (lines 57-65)

```python
def parse_date(raw: str) -> str:
    raw = raw.strip()
    if not raw:
        return ""
    m = re.match(r"(\d{1,2})/(\d{1,2})/(\d{4})", raw)
    if m:
        return f"{m.group(3)}-{m.group(2).zfill(2)}-{m.group(1).zfill(2)}"
    return raw  # return as-is if format is unexpected
```
-/

/-- One `\d{1,2}` group that must be followed by a non-digit continuation:
with backtracking this matches exactly when the maximal leading digit run has
length 1 or 2 (a shorter greedy take would still end at a digit). -/
def twoDigitGroup (cs : List Char) : Option (List Char × List Char) :=
  let ds := cs.takeWhile Char.isDigit
  let rest := cs.dropWhile Char.isDigit
  if ds.length = 1 || ds.length = 2 then some (ds, rest) else none

/-- `re.match(r"(\d{1,2})/(\d{1,2})/(\d{4})", s)`: anchored at the start,
no anchor at the end (trailing characters are ignored). Returns the three
captured groups (day, month, year) on success. -/
def dmyMatch (cs : List Char) : Option (List Char × List Char × List Char) :=
  match twoDigitGroup cs with
  | none => none
  | some (d, r1) =>
    match r1 with
    | '/' :: r2 =>
      match twoDigitGroup r2 with
      | none => none
      | some (m, r3) =>
        match r3 with
        | '/' :: r4 =>
          let y := r4.take 4
          if y.length = 4 && y.all Char.isDigit then some (d, m, y) else none
        | _ => none
    | _ => none

/-- Python `str.zfill(2)` on a digit group (pad on the left with `'0'`). -/
def zfill2 (l : List Char) : List Char := List.replicate (2 - l.length) '0' ++ l

/-- `parse_date`: convert `DD/MM/YYYY` to `YYYY-MM-DD`; empty stays empty;
otherwise the (stripped) input is returned. -/
def parse_date (raw : String) : String :=
  let r := pyStripL raw.data
  if r = [] then ""
  else
    match dmyMatch r with
    | some (d, m, y) => ⟨y ++ '-' :: zfill2 m ++ '-' :: zfill2 d⟩
    | none => ⟨r⟩

end ScrapeBits

namespace ScrapeBits

/-! ### Theorems for claim C4 -/

/-- C4 (counterexample): the claim says a string not matching the `D/M/YYYY`
format is returned unchanged, but `parse_date " x "` returns the stripped
string `"x"`, not `" x "`. -/
theorem parse_date_unchanged_cx :
    parse_date " x " = "x" ∧ parse_date " x " ≠ " x " := by
  constructor
  · rfl
  · decide

/-- C4 (amended): `parse_date` maps `"05/03/2020"` to `"2020-03-05"`, maps any
all-whitespace string (in particular `""`) to `""`, and returns any string
whose stripped form does not begin with a `D/M/YYYY` pattern stripped of
surrounding whitespace but otherwise unchanged. -/
theorem parse_date_spec :
    parse_date "05/03/2020" = "2020-03-05" ∧
    (∀ s : String, pyStripL s.data = [] → parse_date s = "") ∧
    (∀ s : String, dmyMatch (pyStripL s.data) = none → parse_date s = ⟨pyStripL s.data⟩) := by
  refine ⟨rfl, ?_, ?_⟩
  · intro s h
    simp [parse_date, h]
  · intro s h
    by_cases he : pyStripL s.data = []
    · simp [parse_date, he]
    · simp [parse_date, he, h]

/-- C4 (witness): the amended theorem evaluated at `"   "` and `" x "`. -/
theorem parse_date_spec_witness :
    parse_date "   " = "" ∧ parse_date " x " = ⟨pyStripL " x ".data⟩ :=
  ⟨parse_date_spec.2.1 "   " (by decide), parse_date_spec.2.2 " x " (by decide)⟩

/-! ### `deduplicate` (lines 311-324)

```python
def deduplicate(treaties: list[dict]) -> list[dict]:
    seen: dict[str, dict] = {}
    for t in treaties:
        key = t.get("treaty_url", "").strip()
        if not key:
            key = t.get("short_title", "").strip().lower()
        if not key:
            continue
        if key not in seen:
            seen[key] = t
    return list(seen.values())
```

The insertion-ordered `seen` dict is carried as an association list;
`list(seen.values())` is `map Prod.snd`.
-/

/-- The canonical deduplication key of one record: the stripped
`treaty_url` if non-empty, else the stripped lower-cased `short_title`. -/
def dedupKey (t : Item) : String :=
  let k := pyStrip (dictGetD t "treaty_url" "")
  if k = "" then pyLower (pyStrip (dictGetD t "short_title" "")) else k

/-- The loop of `deduplicate`, with the `seen` dict made explicit. -/
def dedupGo (seen : List (String × Item)) : List Item → List (String × Item)
  | [] => seen
  | t :: ts =>
    let k := dedupKey t
    if k = "" then dedupGo seen ts
    else if k ∈ seen.map Prod.fst then dedupGo seen ts
    else dedupGo (seen ++ [(k, t)]) ts

/-- `deduplicate`: keep the first record per key, in first-seen key order. -/
def deduplicate (ts : List Item) : List Item := (dedupGo [] ts).map Prod.snd

/-- Everything the `deduplicate` loop guarantees about the bindings it adds to
`seen`: they extend `seen` on the right, their records form a subsequence of
the input, each binding stores its record's non-empty key, keys are fresh
with respect to `seen` and mutually distinct, and each stored record is the
first input record bearing its key. -/
theorem dedupGo_split (ts : List Item) : ∀ seen : List (String × Item),
    ∃ new : List (String × Item),
      dedupGo seen ts = seen ++ new ∧
      (new.map Prod.snd).Sublist ts ∧
      (∀ p ∈ new, p.1 = dedupKey p.2 ∧ dedupKey p.2 ≠ "" ∧ p.1 ∉ seen.map Prod.fst) ∧
      (new.map Prod.fst).Nodup ∧
      (∀ p ∈ new, ts.find? (fun u => dedupKey u == p.1) = some p.2) := by
  induction ts with
  | nil =>
    intro seen
    exact ⟨[], by simp [dedupGo]⟩
  | cons t ts ih =>
    intro seen
    by_cases hk : dedupKey t = ""
    · obtain ⟨new, h1, h2, h3, h4, h5⟩ := ih seen
      refine ⟨new, ?_, h2.cons t, h3, h4, ?_⟩
      · simpa [dedupGo, hk] using h1
      · intro p hp
        have hne : ¬ (dedupKey t == p.1) = true := by
          have hk2 := (h3 p hp).2.1
          have h1p := (h3 p hp).1
          simp only [beq_iff_eq]
          rw [hk, h1p]
          exact fun h => hk2 h.symm
        exact (List.find?_cons_of_neg ts hne).trans (h5 p hp)
    · by_cases hseen : dedupKey t ∈ seen.map Prod.fst
      · obtain ⟨new, h1, h2, h3, h4, h5⟩ := ih seen
        refine ⟨new, ?_, h2.cons t, h3, h4, ?_⟩
        · simpa [dedupGo, hk, hseen] using h1
        · intro p hp
          have hne : ¬ (dedupKey t == p.1) = true := by
            have hnp := (h3 p hp).2.2
            simp only [beq_iff_eq]
            intro h
            exact hnp (h ▸ hseen)
          exact (List.find?_cons_of_neg ts hne).trans (h5 p hp)
      · obtain ⟨new, h1, h2, h3, h4, h5⟩ := ih (seen ++ [(dedupKey t, t)])
        refine ⟨(dedupKey t, t) :: new, ?_, h2.cons₂ t, ?_, ?_, ?_⟩
        · have hstep : dedupGo seen (t :: ts) = dedupGo (seen ++ [(dedupKey t, t)]) ts := by
            simp [dedupGo, hk, hseen]
          rw [hstep, h1, List.append_assoc]
          rfl
        · intro p hp
          rcases List.mem_cons.mp hp with hp | hp
          · rw [hp]
            exact ⟨rfl, hk, hseen⟩
          · obtain ⟨e1, e2, e3⟩ := h3 p hp
            refine ⟨e1, e2, ?_⟩
            intro hmem
            exact e3 (by simp [hmem])
        · refine List.nodup_cons.mpr ⟨?_, h4⟩
          intro hmem
          obtain ⟨p, hp, hfst⟩ := List.mem_map.mp hmem
          apply (h3 p hp).2.2
          simp [hfst]
        · intro p hp
          rcases List.mem_cons.mp hp with hp | hp
          · rw [hp]
            exact List.find?_cons_of_pos ts (by simp)
          · have hne : ¬ (dedupKey t == p.1) = true := by
              have hnp := (h3 p hp).2.2
              simp only [beq_iff_eq]
              intro h
              exact hnp (by simp [← h])
            exact (List.find?_cons_of_neg ts hne).trans (h5 p hp)

/-- The output of `deduplicate` is a subsequence of the input. -/
theorem deduplicate_sublist (ts : List Item) : (deduplicate ts).Sublist ts := by
  obtain ⟨new, h1, h2, -, -, -⟩ := dedupGo_split ts []
  simpa [deduplicate, h1] using h2

/-- Every retained record has a non-empty key. -/
theorem deduplicate_key_ne_empty (ts : List Item) :
    ∀ u ∈ deduplicate ts, dedupKey u ≠ "" := by
  obtain ⟨new, h1, -, h3, -, -⟩ := dedupGo_split ts []
  intro u hu
  rw [deduplicate, h1, List.nil_append] at hu
  obtain ⟨p, hp, hsnd⟩ := List.mem_map.mp hu
  exact hsnd ▸ (h3 p hp).2.1

/-- Retained records have pairwise-distinct keys. -/
theorem deduplicate_pairwise (ts : List Item) :
    (deduplicate ts).Pairwise (fun a b => dedupKey a ≠ dedupKey b) := by
  obtain ⟨new, h1, -, h3, h4, -⟩ := dedupGo_split ts []
  have hmap : new.map Prod.fst = new.map (fun p => dedupKey p.2) :=
    List.map_congr_left fun p hp => (h3 p hp).1
  rw [deduplicate, h1]
  simp only [List.nil_append]
  have : (new.map (fun p => dedupKey p.2)).Nodup := hmap ▸ h4
  have : ((new.map Prod.snd).map dedupKey).Nodup := by
    simpa [List.map_map, Function.comp] using this
  simpa [List.Nodup, List.pairwise_map] using this

/-- Each retained record is the first input record bearing its key. -/
theorem deduplicate_first (ts : List Item) :
    ∀ u ∈ deduplicate ts, ts.find? (fun v => dedupKey v == dedupKey u) = some u := by
  obtain ⟨new, h1, -, h3, -, h5⟩ := dedupGo_split ts []
  intro u hu
  rw [deduplicate, h1, List.nil_append] at hu
  obtain ⟨p, hp, hsnd⟩ := List.mem_map.mp hu
  have hfind := h5 p hp
  rw [(h3 p hp).1] at hfind
  rw [← hsnd]
  exact hfind

/-- C1: keys of the output of `deduplicate` are pairwise distinct, the output
is a subsequence of the input (so every output record is an input record,
unchanged and in first-seen key order), and each retained record is the first
input record bearing its key (first-write-wins). -/
theorem deduplicate_c1 (ts : List Item) :
    ((deduplicate ts).Pairwise fun a b => dedupKey a ≠ dedupKey b) ∧
    (deduplicate ts).Sublist ts ∧
    (∀ u ∈ deduplicate ts, u ∈ ts) ∧
    (∀ u ∈ deduplicate ts, ts.find? (fun v => dedupKey v == dedupKey u) = some u) :=
  ⟨deduplicate_pairwise ts, deduplicate_sublist ts,
   fun _ hu => (deduplicate_sublist ts).mem hu, deduplicate_first ts⟩

/-- On a list whose records all have non-empty, pairwise-distinct keys,
the `deduplicate` loop appends every record unchanged. -/
theorem dedupGo_clean (us : List Item) :
    ∀ seen : List (String × Item),
      (∀ u ∈ us, dedupKey u ≠ "") →
      (us.Pairwise fun a b => dedupKey a ≠ dedupKey b) →
      (∀ u ∈ us, dedupKey u ∉ seen.map Prod.fst) →
      dedupGo seen us = seen ++ us.map (fun u => (dedupKey u, u)) := by
  induction us with
  | nil => intro seen _ _ _; simp [dedupGo]
  | cons u us ih =>
    intro seen hne hpw hfresh
    have hk : dedupKey u ≠ "" := hne u (by simp)
    have hs : dedupKey u ∉ seen.map Prod.fst := hfresh u (by simp)
    have step : dedupGo seen (u :: us) = dedupGo (seen ++ [(dedupKey u, u)]) us := by
      simp [dedupGo, hk, hs]
    rw [step, ih (seen ++ [(dedupKey u, u)]) (fun v hv => hne v (by simp [hv]))
      (List.Pairwise.of_cons hpw) ?_]
    · simp
    · intro v hv
      simp only [List.map_append, List.mem_append, List.map_cons, List.map_nil,
        List.mem_singleton, not_or]
      refine ⟨hfresh v (by simp [hv]), ?_⟩
      have := (List.pairwise_cons.mp hpw).1 v hv
      simpa using fun h => this h.symm

/-- C2: `deduplicate` is idempotent. -/
theorem deduplicate_idem (ts : List Item) :
    deduplicate (deduplicate ts) = deduplicate ts := by
  have h := dedupGo_clean (deduplicate ts) [] (deduplicate_key_ne_empty ts)
    (deduplicate_pairwise ts) (by simp)
  rw [deduplicate, h]
  have hcomp : (Prod.snd ∘ fun u : Item => (dedupKey u, u)) = id := rfl
  rw [List.nil_append, List.map_map, hcomp, List.map_id]

/-- Skipping: a record with an empty key is passed over by the loop. -/
theorem dedupGo_skip (l1 : List Item) (t : Item) (l2 : List Item)
    (hk : dedupKey t = "") :
    ∀ seen, dedupGo seen (l1 ++ t :: l2) = dedupGo seen (l1 ++ l2) := by
  induction l1 with
  | nil => intro seen; simp [dedupGo, hk]
  | cons u l1 ih =>
    intro seen
    by_cases hu : dedupKey u = ""
    · simp [dedupGo, hu, ih]
    · by_cases hs : dedupKey u ∈ seen.map Prod.fst
      · simp [dedupGo, hu, hs, ih]
      · simp [dedupGo, hu, hs, ih]

/-- C3: a record whose `treaty_url` and `short_title` are both empty after
stripping is excluded from the output of `deduplicate`, and processing it
raises no error: the output equals that for the input without the record. -/
theorem deduplicate_drops_unkeyable (l1 l2 : List Item) (t : Item)
    (hurl : pyStrip (dictGetD t "treaty_url" "") = "")
    (htitle : pyStrip (dictGetD t "short_title" "") = "") :
    t ∉ deduplicate (l1 ++ t :: l2) ∧
    deduplicate (l1 ++ t :: l2) = deduplicate (l1 ++ l2) := by
  have hk : dedupKey t = "" := by
    rw [dedupKey, hurl, htitle]
    rfl
  constructor
  · intro hmem
    exact deduplicate_key_ne_empty _ t hmem hk
  · rw [deduplicate, deduplicate, dedupGo_skip l1 t l2 hk]

/-- C3 (witness): the theorem evaluated on a concrete list around a record
with whitespace-only `treaty_url` and `short_title`. -/
theorem deduplicate_drops_unkeyable_witness :
    [("treaty_url", "  "), ("short_title", " ")] ∉
      deduplicate [[("treaty_url", "u1"), ("short_title", "A")],
        [("treaty_url", "  "), ("short_title", " ")],
        [("treaty_url", ""), ("short_title", "B")]] ∧
    deduplicate [[("treaty_url", "u1"), ("short_title", "A")],
        [("treaty_url", "  "), ("short_title", " ")],
        [("treaty_url", ""), ("short_title", "B")]] =
      deduplicate [[("treaty_url", "u1"), ("short_title", "A")],
        [("treaty_url", ""), ("short_title", "B")]] :=
  deduplicate_drops_unkeyable
    [[("treaty_url", "u1"), ("short_title", "A")]]
    [[("treaty_url", ""), ("short_title", "B")]]
    [("treaty_url", "  "), ("short_title", " ")] (by decide) (by decide)

/-! ### CSV export and checkpointing (lines 331-355 and 362-385)

```python
COLUMNS = ["treaty_url", "short_title", "treaty_type", "status", "party_1",
           "party_2", "date_of_signature", "date_of_entry_into_force",
           "date_of_termination", "termination_type"]

def _write_csv(treaties, path, dedupe=True):
    data = deduplicate(treaties) if dedupe else treaties
    writer = csv.DictWriter(f, fieldnames=COLUMNS, extrasaction="ignore")
    writer.writeheader()
    for t in data:
        writer.writerow(t)

def save_checkpoint(done_ids, treaties):
    json.dump({"done_country_ids": done_ids, "treaty_count": len(treaties)}, f)
    _write_csv(treaties, DATA_DIR / "treaties_partial.csv", dedupe=False)

def load_checkpoint():
    ...
    done = set(ckpt.get("done_country_ids", []))
    reader = csv.DictReader(f)
    for row in reader:
        treaties.append(dict(row))
    return done, treaties
```

The two files on disk are modelled as an explicit `CheckpointState` value.
A `csv.DictWriter` row holds exactly the `fieldnames` in order: extra dict
keys are ignored (`extrasaction="ignore"`) and missing ones written as the
default `restval`, the empty string; `csv.DictReader` yields one dict per
row keyed by the header, which round-trips that projection.
-/

/-- The fixed export column set. -/
def COLUMNS : List String :=
  ["treaty_url", "short_title", "treaty_type", "status", "party_1", "party_2",
   "date_of_signature", "date_of_entry_into_force", "date_of_termination",
   "termination_type"]

/-- One `csv.DictWriter` row for a record: the ten export columns in order,
extra keys dropped, missing keys written as the empty string. -/
def writeRow (t : Item) : Item := COLUMNS.map fun c => (c, dictGetD t c "")

/-- `_write_csv`: the rows written to a CSV file. -/
def writeCsvRows (ts : List Item) (dedupe : Bool) : List Item :=
  (if dedupe then deduplicate ts else ts).map writeRow

/-- The two checkpoint files on disk: `checkpoint.json` (done country ids and
a treaty count) and `treaties_partial.csv` (the raw accumulator rows). -/
structure CheckpointState where
  ckpt : Option (List ℕ × ℕ)
  partialRows : Option (List Item)

/-- `save_checkpoint`: write both checkpoint files. -/
def save_checkpoint (done_ids : List ℕ) (treaties : List Item) : CheckpointState :=
  { ckpt := some (done_ids, treaties.length),
    partialRows := some (writeCsvRows treaties false) }

/-- `load_checkpoint`: read the id set and the accumulated rows back, the
empty state when no checkpoint exists. -/
def load_checkpoint (st : CheckpointState) : List ℕ × List Item :=
  match st.ckpt with
  | none => ([], [])
  | some (ids, _) =>
    (ids, match st.partialRows with
          | none => []
          | some rows => rows)

/-- C9: loading immediately after saving returns the same set of completed
anchor ids and a list with the same number of items. -/
theorem checkpoint_roundtrip (ids : List ℕ) (ts : List Item) :
    (∀ x, x ∈ (load_checkpoint (save_checkpoint ids ts)).1 ↔ x ∈ ids) ∧
    (load_checkpoint (save_checkpoint ids ts)).2.length = ts.length := by
  refine ⟨fun x => Iff.rfl, ?_⟩
  simp [load_checkpoint, save_checkpoint, writeCsvRows]

/-- Looking a key up in a row built from a key list: present with the mapped
value exactly when the key is in the list. -/
theorem dictGet_mapRow (ks : List String) (f : String → String) (k : String) :
    dictGet (ks.map fun c => (c, f c)) k =
      if k ∈ ks then some (f k) else none := by
  induction ks with
  | nil => simp [dictGet]
  | cons c ks ih =>
    simp only [List.map_cons, dictGet, ih, List.mem_cons]
    by_cases hc : c = k
    · subst hc
      simp
    · have hkc : ¬ k = c := fun h => hc h.symm
      simp [hc, hkc]

/-- C10: the checkpoint persists raw items only through the fixed export
column set: the reloaded list is exactly the projections of the saved items,
each reloaded row carries exactly the ten export columns in order (missing
ones filled with the empty string), and any other key, in particular
`parties_raw`, `source_country_id` and `source_country`, is absent. -/
theorem checkpoint_export_columns (ids : List ℕ) (ts : List Item) :
    (load_checkpoint (save_checkpoint ids ts)).2 = ts.map writeRow ∧
    ∀ t : Item,
      (writeRow t).map Prod.fst = COLUMNS ∧
      (∀ k, k ∈ COLUMNS → dictGet (writeRow t) k = some (dictGetD t k "")) ∧
      (∀ k, k ∉ COLUMNS → dictGet (writeRow t) k = none) := by
  refine ⟨rfl, fun t => ⟨?_, fun k hk => ?_, fun k hk => ?_⟩⟩
  · have hcomp : (Prod.fst ∘ fun c => (c, dictGetD t c "")) = id := rfl
    rw [writeRow, List.map_map, hcomp, List.map_id]
  · rw [writeRow, dictGet_mapRow, if_pos hk]
  · rw [writeRow, dictGet_mapRow, if_neg hk]

/-- C10 (witness): a concrete record carrying `parties_raw`,
`source_country_id` and `source_country` loses those keys in the round-trip
and keeps exactly the export columns. -/
theorem checkpoint_export_columns_witness :
    (load_checkpoint (save_checkpoint [3]
        [[("treaty_url", "u"), ("parties_raw", "A, B"),
          ("source_country_id", "3"), ("source_country", "Albania")]])).2 =
      [[("treaty_url", "u"), ("parties_raw", "A, B"),
        ("source_country_id", "3"), ("source_country", "Albania")]].map writeRow ∧
    dictGet (writeRow [("treaty_url", "u"), ("parties_raw", "A, B"),
        ("source_country_id", "3"), ("source_country", "Albania")])
        "parties_raw" = none ∧
    dictGet (writeRow [("treaty_url", "u"), ("parties_raw", "A, B"),
        ("source_country_id", "3"), ("source_country", "Albania")])
        "source_country_id" = none ∧
    dictGet (writeRow [("treaty_url", "u"), ("parties_raw", "A, B"),
        ("source_country_id", "3"), ("source_country", "Albania")])
        "source_country" = none ∧
    dictGet (writeRow [("treaty_url", "u"), ("parties_raw", "A, B"),
        ("source_country_id", "3"), ("source_country", "Albania")])
        "treaty_url" = some "u" := by
  have h := checkpoint_export_columns [3]
    [[("treaty_url", "u"), ("parties_raw", "A, B"),
      ("source_country_id", "3"), ("source_country", "Albania")]]
  refine ⟨h.1, ?_, ?_, ?_, ?_⟩
  · exact (h.2 _).2.2 "parties_raw" (by decide)
  · exact (h.2 _).2.2 "source_country_id" (by decide)
  · exact (h.2 _).2.2 "source_country" (by decide)
  · exact ((h.2 _).2.1 "treaty_url" (by decide)).trans (by decide)

/-! ### Indexed-attribute row extraction (lines 204-228)

```python
cell_map: dict[str, str] = {}
for cell in cells:
    idx = await cell.get_attribute("data-index")
    text = ((await cell.inner_text()) or "").strip()
    if idx:
        cell_map[idx] = text
...
if cell_map:
    treaty = {
        "treaty_url": treaty_url,
        "short_title": cell_map.get("2", cell_map.get("1", "")),
        "treaty_type": cell_map.get("3", cell_map.get("2", "")),
        "status": cell_map.get("4", cell_map.get("3", "")),
        "parties_raw": cell_map.get("5", cell_map.get("4", "")),
        "date_of_signature": cell_map.get("6", cell_map.get("5", "")),
        "date_of_entry_into_force": cell_map.get("7", cell_map.get("6", "")),
        "date_of_termination": cell_map.get("8", cell_map.get("7", "")),
    }
```

The positional column order is `[#, title, type, status, parties, sign_date,
entry_date, term_date, text]`, so for each field the primary key is its
1-based column index and the fallback key its 0-based index.
-/

/-- Build the sparse `data-index` to text mapping of one row. Each cell is a
pair of its optional `data-index` attribute and its inner text. -/
def buildCellMap (cells : List (Option String × String)) : Item :=
  cells.foldl
    (fun m cell =>
      match cell.1 with
      | some idx => if idx = "" then m else dictInsert m idx (pyStrip cell.2)
      | none => m)
    []

/-- The record built by the indexed-attribute strategy from a row's treaty
link and cell map. -/
def indexedTreaty (treaty_url : String) (cm : Item) : Item :=
  [("treaty_url", treaty_url),
   ("short_title", dictGetD cm "2" (dictGetD cm "1" "")),
   ("treaty_type", dictGetD cm "3" (dictGetD cm "2" "")),
   ("status", dictGetD cm "4" (dictGetD cm "3" "")),
   ("parties_raw", dictGetD cm "5" (dictGetD cm "4" "")),
   ("date_of_signature", dictGetD cm "6" (dictGetD cm "5" "")),
   ("date_of_entry_into_force", dictGetD cm "7" (dictGetD cm "6" "")),
   ("date_of_termination", dictGetD cm "8" (dictGetD cm "7" ""))]

/-- For each extracted field, its name, its 0-based marker key and its
1-based marker key under the positional column order. -/
def fieldIndexPairs : List (String × String × String) :=
  [("short_title", "1", "2"), ("treaty_type", "2", "3"), ("status", "3", "4"),
   ("parties_raw", "4", "5"), ("date_of_signature", "5", "6"),
   ("date_of_entry_into_force", "6", "7"), ("date_of_termination", "7", "8")]

/-- C7 (counterexample): with both marker conventions yielding non-empty
values for the title cell, the extracted `short_title` is the 1-based value
`"B"`, not the 0-based value `"A"` the claim requires. -/
theorem indexed_zero_based_cx :
    dictGet (buildCellMap [(some "1", "A"), (some "2", "B")]) "1" = some "A" ∧
    dictGet (buildCellMap [(some "1", "A"), (some "2", "B")]) "2" = some "B" ∧
    dictGet (indexedTreaty "" (buildCellMap [(some "1", "A"), (some "2", "B")]))
      "short_title" = some "B" ∧
    dictGet (indexedTreaty "" (buildCellMap [(some "1", "A"), (some "2", "B")]))
      "short_title" ≠ some "A" := by
  refine ⟨rfl, rfl, rfl, ?_⟩
  decide

/-- C7 (amended): for every row and field, when both the 0-based and the
1-based marker keys are present with non-empty values, the 1-based value is
the one extracted (the 0-based key is only a fallback). -/
theorem indexed_prefers_one_based (u : String) (cm : Item)
    (f kz ko : String) (hf : (f, kz, ko) ∈ fieldIndexPairs)
    (vz vo : String) (hz : dictGet cm kz = some vz) (ho : dictGet cm ko = some vo)
    (hvz : vz ≠ "") (hvo : vo ≠ "") :
    dictGet (indexedTreaty u cm) f = some vo := by
  have hval : dictGetD cm ko (dictGetD cm kz "") = vo := by
    rw [dictGetD, ho]
    rfl
  fin_cases hf <;>
    simp [indexedTreaty, dictGet, hval]

/-- C7 (witness): the amended theorem at a concrete row where both marker
keys for the title column are present and non-empty. -/
theorem indexed_prefers_one_based_witness :
    dictGet (indexedTreaty "" (buildCellMap [(some "1", "A"), (some "2", "B")]))
      "short_title" = some "B" :=
  indexed_prefers_one_based "" (buildCellMap [(some "1", "A"), (some "2", "B")])
    "short_title" "1" "2" (by decide) "A" "B" (by decide) (by decide)
    (by decide) (by decide)

/-! ### Country discovery, `get_country_list` (lines 116-173)

```python
countries: list[dict] = []
# Strategy 1:
selects = await page.query_selector_all("select")
for sel in selects:
    options = await sel.query_selector_all("option")
    for opt in options:
        value = (await opt.get_attribute("value")) or ""
        text = ((await opt.inner_text()) or "").strip()
        m = re.search(r"/countries/(\d+)/([a-z0-9-]+)", value)
        if m:
            countries.append({"id": int(m.group(1)), "slug": m.group(2), "name": text})
if countries:
    return countries
# Strategy 2:
links = await page.query_selector_all("a[href*='/countries/']")
seen = set()
for link in links:
    href = (await link.get_attribute("href")) or ""
    text = ((await link.inner_text()) or "").strip()
    m = re.search(r"/countries/(\d+)/([a-z0-9-]+)", href)
    if m and m.group(1) not in seen:
        seen.add(m.group(1))
        countries.append({"id": int(m.group(1)), "slug": m.group(2), "name": text})
if countries:
    return countries
# Strategy 3: brute-force IDs 1-250
for cid in range(1, 251):
    resp = await page.goto(test_url, ...)
    final_url = page.url
    m = re.search(r"/countries/(\d+)/([a-z0-9-]+)", final_url)
    if m and resp and resp.status < 400:
        name = heading text if present else m.group(2)
        countries.append({"id": int(m.group(1)), "slug": m.group(2), "name": name})
```

The page content is modelled as the option pairs of every `<select>`, the
`(href, text)` pairs of the country links, and (for the brute-force probe)
a function from a candidate id to the navigation outcome, `none` meaning
the navigation raised (the candidate is skipped).
-/

/-- A discovered collection anchor: `{"id": ..., "slug": ..., "name": ...}`. -/
structure Country where
  id : ℕ
  slug : String
  name : String
deriving DecidableEq, Repr

/-- The character class `[a-z0-9-]` of the country-URL pattern. -/
def isSlugChar (c : Char) : Bool := c.isLower || c.isDigit || c = '-'

/-- Try the pattern `/countries/(\d+)/([a-z0-9-]+)` at the start of the
character list, returning the two captured groups. The greedy `\d+` must be
followed by `/`: a shorter take would still end at a digit, so the pattern
matches here exactly when the maximal digit run is non-empty and followed by
`/` and at least one slug character. -/
def matchCountryAt (cs : List Char) : Option (List Char × List Char) :=
  if cs.take 11 = "/countries/".data then
    let rest := cs.drop 11
    match rest.takeWhile Char.isDigit, rest.dropWhile Char.isDigit with
    | [], _ => none
    | d :: ds, '/' :: r2 =>
      let sl := r2.takeWhile isSlugChar
      if sl.isEmpty then none else some (d :: ds, sl)
    | _, _ => none
  else none

/-- `re.search(r"/countries/(\d+)/([a-z0-9-]+)", s)`: the leftmost match. -/
def searchCountry : List Char → Option (List Char × List Char)
  | [] => none
  | c :: cs =>
    match matchCountryAt (c :: cs) with
    | some r => some r
    | none => searchCountry cs

/-- The value of Python `int()` on the captured decimal digit string. -/
def digitsToNat (ds : List Char) : ℕ :=
  Nat.ofDigits 10 ((ds.map fun c => c.toNat - 48).reverse)

/-- Strategy 1: every option of every `<select>` whose value matches the
country pattern, with no deduplication. -/
def strategy1 (selects : List (List (String × String))) : List Country :=
  selects.flatMap fun opts =>
    opts.filterMap fun ov =>
      match searchCountry ov.1.data with
      | some (ds, sl) => some ⟨digitsToNat ds, String.mk sl, pyStrip ov.2⟩
      | none => none

/-- Strategy 2's loop: sidebar links matching the pattern, deduplicated by
the matched id token through the `seen` set. -/
def strategy2Go (seen : List (List Char)) : List (String × String) → List Country
  | [] => []
  | (href, text) :: rest =>
    match searchCountry href.data with
    | some (ds, sl) =>
      if ds ∈ seen then strategy2Go seen rest
      else ⟨digitsToNat ds, String.mk sl, pyStrip text⟩ :: strategy2Go (ds :: seen) rest
    | none => strategy2Go seen rest

/-- Strategy 2: the hyperlink scan, starting from an empty `seen` set. -/
def strategy2 (links : List (String × String)) : List Country :=
  strategy2Go [] links

/-- What one brute-force navigation observes: optional response status
(`none` models a null response object), the resolved URL, and the optional
heading text. -/
structure ProbeOutcome where
  status : Option ℕ
  finalUrl : String
  heading : Option String

/-- Strategy 3: probe candidate ids 1 to 250; a raised navigation (`none`)
is skipped, and a hit needs a pattern match on the resolved URL and a
non-error status. -/
def strategy3 (probe : ℕ → Option ProbeOutcome) : List Country :=
  (List.range' 1 250).filterMap fun cid =>
    match probe cid with
    | none => none
    | some o =>
      match searchCountry o.finalUrl.data, o.status with
      | some (ds, sl), some st =>
        if st < 400 then
          some ⟨digitsToNat ds, String.mk sl,
            match o.heading with
            | some h => pyStrip h
            | none => String.mk sl⟩
        else none
      | _, _ => none

/-- `get_country_list`: the three strategies in fallback order, stopping at
the first non-empty result. -/
def get_country_list (selects : List (List (String × String)))
    (links : List (String × String)) (probe : ℕ → Option ProbeOutcome) :
    List Country :=
  let c1 := strategy1 selects
  if c1 ≠ [] then c1
  else
    let c2 := strategy2 links
    if c2 ≠ [] then c2
    else strategy3 probe

/-- A well-formed id token: non-empty, all decimal digits, no leading zero
(so distinct tokens denote distinct integers). -/
def cleanIdToken : Option (List Char × List Char) → Bool
  | none => true
  | some (ds, _) => !ds.isEmpty && ds.all Char.isDigit && !(ds.head? == some '0')

/-- A digit character's code point lies between 48 and 57. -/
theorem toNat_bounds_of_isDigit {c : Char} (h : c.isDigit = true) :
    48 ≤ c.toNat ∧ c.toNat ≤ 57 := by
  simp only [Char.isDigit, ge_iff_le, Bool.and_eq_true, decide_eq_true_eq] at h
  obtain ⟨h1, h2⟩ := h
  rw [UInt32.le_def, BitVec.le_def] at h1 h2
  exact ⟨h1, h2⟩

/-- Characters with equal code points are equal. -/
theorem char_eq_of_toNat_eq {c d : Char} (h : c.toNat = d.toNat) : c = d := by
  rw [← Char.ofNat_toNat c, ← Char.ofNat_toNat d, h]

/-- Digit strings with equal digit-value images are equal. -/
theorem mapDigitVal_inj : ∀ a b : List Char,
    (∀ c ∈ a, c.isDigit = true) → (∀ c ∈ b, c.isDigit = true) →
    (a.map fun c => c.toNat - 48) = (b.map fun c => c.toNat - 48) → a = b
  | [], [], _, _, _ => rfl
  | [], _ :: _, _, _, h => by simp at h
  | _ :: _, [], _, _, h => by simp at h
  | c :: a, d :: b, ha, hb, h => by
    simp only [List.map_cons, List.cons.injEq] at h
    obtain ⟨h1, h2⟩ := h
    have hca := toNat_bounds_of_isDigit (ha c (by simp))
    have hdb := toNat_bounds_of_isDigit (hb d (by simp))
    have hcd : c.toNat = d.toNat := by omega
    rw [char_eq_of_toNat_eq hcd,
      mapDigitVal_inj a b (fun x hx => ha x (by simp [hx]))
        (fun x hx => hb x (by simp [hx])) h2]

/-- The decimal digits of `digitsToNat ds` are exactly the digit values of
`ds` (for a clean token), by `Nat.digits_ofDigits`. -/
theorem digits_roundtrip (a : List Char) (ha1 : a ≠ [])
    (ha2 : ∀ c ∈ a, c.isDigit = true) (ha3 : a.head? ≠ some '0') :
    Nat.digits 10 (digitsToNat a) = (a.map fun c => c.toNat - 48).reverse := by
  apply Nat.digits_ofDigits 10 (by norm_num)
  · intro l hl
    rw [List.mem_reverse, List.mem_map] at hl
    obtain ⟨c, hc, rfl⟩ := hl
    have hb := toNat_bounds_of_isDigit (ha2 c hc)
    omega
  · intro hne
    rw [List.getLast_reverse]
    cases a with
    | nil => exact absurd rfl ha1
    | cons c t =>
      simp only [List.map_cons, List.head_cons]
      have hb := toNat_bounds_of_isDigit (ha2 c (by simp))
      have hc0 : c ≠ '0' := by
        intro hc
        exact ha3 (by rw [hc]; rfl)
      have h48 : c.toNat ≠ 48 := by
        intro h
        exact hc0 (char_eq_of_toNat_eq (h.trans (by decide)))
      omega

/-- Distinct clean id tokens denote distinct integers. -/
theorem digitsToNat_inj (a b : List Char)
    (ha1 : a ≠ []) (ha2 : ∀ c ∈ a, c.isDigit = true) (ha3 : a.head? ≠ some '0')
    (hb1 : b ≠ []) (hb2 : ∀ c ∈ b, c.isDigit = true) (hb3 : b.head? ≠ some '0')
    (h : digitsToNat a = digitsToNat b) : a = b := by
  have ra := digits_roundtrip a ha1 ha2 ha3
  have rb := digits_roundtrip b hb1 hb2 hb3
  rw [h] at ra
  have hrev : (a.map fun c => c.toNat - 48).reverse =
      (b.map fun c => c.toNat - 48).reverse := ra.symm.trans rb
  exact mapDigitVal_inj a b ha2 hb2 (List.reverse_injective hrev)

/-- Unpack `cleanIdToken` on a successful match. -/
theorem cleanIdToken_some {ds sl : List Char}
    (h : cleanIdToken (some (ds, sl)) = true) :
    ds ≠ [] ∧ (∀ c ∈ ds, c.isDigit = true) ∧ ds.head? ≠ some '0' := by
  simp only [cleanIdToken, Bool.and_eq_true, Bool.not_eq_true', List.isEmpty_eq_false,
    List.all_eq_true, beq_eq_false_iff_ne, ne_eq] at h
  exact ⟨h.1.1, h.1.2, h.2⟩

/-- The hyperlink-scan loop: ids are pairwise distinct, and each produced
country's id token is clean and absent from the incoming `seen` set. -/
theorem strategy2Go_spec (links : List (String × String)) :
    ∀ seen : List (List Char),
      (∀ p ∈ links, cleanIdToken (searchCountry p.1.data) = true) →
      ((strategy2Go seen links).map Country.id).Nodup ∧
      (∀ c ∈ strategy2Go seen links, ∃ ds : List Char,
        (ds ≠ [] ∧ (∀ ch ∈ ds, ch.isDigit = true) ∧ ds.head? ≠ some '0') ∧
        c.id = digitsToNat ds ∧ ds ∉ seen) := by
  induction links with
  | nil =>
    intro seen _
    exact ⟨List.nodup_nil, by simp [strategy2Go]⟩
  | cons p links ih =>
    intro seen hclean
    obtain ⟨href, text⟩ := p
    have hrest : ∀ q ∈ links, cleanIdToken (searchCountry q.1.data) = true :=
      fun q hq => hclean q (List.mem_cons_of_mem _ hq)
    cases hsearch : searchCountry href.data with
    | none =>
      have hstep : strategy2Go seen ((href, text) :: links) = strategy2Go seen links := by
        simp [strategy2Go, hsearch]
      rw [hstep]
      exact ih seen hrest
    | some r =>
      obtain ⟨ds, sl⟩ := r
      have hds := cleanIdToken_some
        (by simpa [hsearch] using hclean (href, text) (List.mem_cons_self _ _))
      by_cases hseen : ds ∈ seen
      · have hstep : strategy2Go seen ((href, text) :: links) = strategy2Go seen links := by
          simp [strategy2Go, hsearch, hseen]
        rw [hstep]
        exact ih seen hrest
      · have hstep : strategy2Go seen ((href, text) :: links) =
            ⟨digitsToNat ds, String.mk sl, pyStrip text⟩ ::
              strategy2Go (ds :: seen) links := by
          simp [strategy2Go, hsearch, hseen]
        obtain ⟨ihnd, ihaux⟩ := ih (ds :: seen) hrest
        rw [hstep]
        constructor
        · rw [List.map_cons, List.nodup_cons]
          refine ⟨?_, ihnd⟩
          intro hmem
          obtain ⟨c, hc, hcid⟩ := List.mem_map.mp hmem
          obtain ⟨ds2, hds2c, hc2, hnot2⟩ := ihaux c hc
          have hne : ds2 ≠ ds := fun h => hnot2 (h ▸ List.mem_cons_self _ _)
          apply hne
          apply digitsToNat_inj ds2 ds hds2c.1 hds2c.2.1 hds2c.2.2
            hds.1 hds.2.1 hds.2.2
          rw [← hc2, hcid]
        · intro c hc
          rcases List.mem_cons.mp hc with hc | hc
          · exact ⟨ds, hds, by rw [hc], hseen⟩
          · obtain ⟨ds2, hds2c, hc2, hnot2⟩ := ihaux c hc
            exact ⟨ds2, hds2c, hc2, fun h => hnot2 (List.mem_cons_of_mem _ h)⟩

/-- C8 (counterexample): discovery does not guarantee distinct ids: the
structured-selector strategy appends every matching option with no
deduplication, so a page whose select repeats an option yields the same id
twice from `get_country_list`. -/
theorem discovery_ids_cx :
    ¬ (((get_country_list
          [[("/countries/7/x-land", "X Land"), ("/countries/7/x-land", "X Land")]]
          [] fun _ => none).map Country.id).Nodup) := by
  decide

/-- C8 (amended): the hyperlink-scan strategy deduplicates by the matched id
token, so its ids are pairwise distinct whenever every matched token is a
clean numeral (non-empty digits, no leading zero); the structured-selector
and brute-force strategies perform no deduplication and can repeat ids. -/
theorem strategy2_ids_nodup (links : List (String × String))
    (h : ∀ p ∈ links, cleanIdToken (searchCountry p.1.data) = true) :
    ((strategy2 links).map Country.id).Nodup :=
  (strategy2Go_spec links [] h).1

/-- C8 (witness): the amended theorem on a concrete link list with a
repeated link and a second country. -/
theorem strategy2_ids_nodup_witness :
    ((strategy2 [("/countries/1/albania", "Albania"),
        ("/countries/1/albania", "Albania"),
        ("/countries/2/brazil", "Brazil")]).map Country.id).Nodup :=
  strategy2_ids_nodup
    [("/countries/1/albania", "Albania"), ("/countries/1/albania", "Albania"),
     ("/countries/2/brazil", "Brazil")] (by decide)

/-! ### `split_parties` (lines 68-95)

```python
def split_parties(parties_str: str) -> tuple[str, str]:
    parties_str = parties_str.strip()
    parts = [p.strip() for p in parties_str.split(",")]
    if len(parts) == 2:
        return parts[0], parts[1]
    for i in range(1, len(parts)):
        left = ", ".join(parts[:i]).strip()
        right = ", ".join(parts[i:]).strip()
        if left and right:
            if right[0].isupper():
                candidate = (left, right)
    try:
        return candidate
    except NameError:
        return parties_str, ""
```
-/

/-- Python `s.split(",")`: split at every comma, keeping empty pieces. -/
def splitOnComma : List Char → List (List Char)
  | [] => [[]]
  | c :: cs =>
    if c = ',' then [] :: splitOnComma cs
    else
      match splitOnComma cs with
      | [] => [[c]]
      | p :: ps => (c :: p) :: ps

/-- `[p.strip() for p in parties_str.strip().split(",")]`. -/
def partsOf (s : String) : List (List Char) :=
  (splitOnComma (pyStripL s.data)).map pyStripL

/-- `", ".join(...)`. -/
def joinCS (ps : List (List Char)) : List Char := List.intercalate [',', ' '] ps

/-- `", ".join(parts[:i]).strip()`. -/
def spLeft (s : String) (i : ℕ) : List Char := pyStripL (joinCS ((partsOf s).take i))

/-- `", ".join(parts[i:]).strip()`. -/
def spRight (s : String) (i : ℕ) : List Char := pyStripL (joinCS ((partsOf s).drop i))

/-- The loop's guard at comma position `i`: `left and right` truthy and
`right[0].isupper()`. -/
def qualifies (s : String) (i : ℕ) : Bool :=
  !(spLeft s i).isEmpty && !(spRight s i).isEmpty &&
    (match (spRight s i).head? with
     | some c => c.isUpper
     | none => false)

/-- The candidate split at comma position `i` (components stripped and
rejoined with `", "`). -/
def splitAtComma (s : String) (i : ℕ) : String × String :=
  (⟨spLeft s i⟩, ⟨spRight s i⟩)

/-- `split_parties`. -/
def split_parties (s : String) : String × String :=
  if h : (partsOf s).length = 2 then
    (⟨(partsOf s).get ⟨0, by omega⟩⟩, ⟨(partsOf s).get ⟨1, by omega⟩⟩)
  else
    match (List.range' 1 ((partsOf s).length - 1)).foldl
        (fun cand i => if qualifies s i then some (splitAtComma s i) else cand)
        (none : Option (String × String)) with
    | some c => c
    | none => (⟨pyStripL s.data⟩, "")

/-- Modelled from the spec: the claim's qualifying condition on a comma
position mentions only the right-hand component (non-empty, capital
initial), with no condition on the left-hand component. -/
def specQualifies (s : String) (i : ℕ) : Bool :=
  !(spRight s i).isEmpty &&
    (match (spRight s i).head? with
     | some c => c.isUpper
     | none => false)

/-- Candidate accumulation skips positions whose guard is false. -/
theorem foldl_cand_none (s : String) (L : List ℕ)
    (h : ∀ i ∈ L, qualifies s i = false) :
    ∀ acc : Option (String × String),
      L.foldl (fun cand i => if qualifies s i then some (splitAtComma s i) else cand)
        acc = acc := by
  induction L with
  | nil => intro acc; rfl
  | cons a L ih =>
    intro acc
    have ha : qualifies s a = false := h a (List.mem_cons_self a L)
    simp only [List.foldl_cons, ha]
    exact ih (fun i hi => h i (List.mem_cons_of_mem a hi)) acc

/-- C5 (counterexample): on `",Foo, bar"` the last comma position whose
right-hand component is non-empty and capital-initial is position 1, yet
`split_parties` does not return that split (the loop also requires a
non-empty left component, so no candidate is ever assigned and the fallback
returns the whole string). -/
theorem split_parties_cx :
    (partsOf ",Foo, bar").length = 3 ∧
    specQualifies ",Foo, bar" 1 = true ∧
    specQualifies ",Foo, bar" 2 = false ∧
    splitAtComma ",Foo, bar" 1 = ("", "Foo, bar") ∧
    split_parties ",Foo, bar" = (",Foo, bar", "") ∧
    split_parties ",Foo, bar" ≠ splitAtComma ",Foo, bar" 1 := by
  decide

/-- C5 (amended): the two concrete examples hold, and for any input with
more than one comma the returned split is the one at the last comma position
where both stripped components are non-empty and the right-hand one starts
with an uppercase letter (components rejoined with `", "`); when no comma
position qualifies, the whole stripped string is returned with an empty
second component. -/
theorem split_parties_c5 :
    split_parties "Germany, France" = ("Germany", "France") ∧
    split_parties "Korea, Republic of, Germany" = ("Korea, Republic of", "Germany") ∧
    (∀ s j, 3 ≤ (partsOf s).length → 1 ≤ j → j < (partsOf s).length →
      qualifies s j = true →
      (∀ i, j < i → i < (partsOf s).length → qualifies s i = false) →
      split_parties s = splitAtComma s j) ∧
    (∀ s, 3 ≤ (partsOf s).length →
      (∀ i, 1 ≤ i → i < (partsOf s).length → qualifies s i = false) →
      split_parties s = (⟨pyStripL s.data⟩, "")) := by
  refine ⟨by decide, by decide, ?_, ?_⟩
  · intro s j h3 hj1 hjn hq hmax
    rw [split_parties, dif_neg (by omega)]
    have hdecomp : List.range' 1 ((partsOf s).length - 1) =
        List.range' 1 (j - 1) ++ j :: List.range' (j + 1) ((partsOf s).length - j - 1) := by
      have h2 : ((partsOf s).length - j) + (j - 1) = (partsOf s).length - 1 := by omega
      have h1 : 1 + (j - 1) = j := by omega
      have h4 : (partsOf s).length - j = ((partsOf s).length - j - 1) + 1 := by omega
      have happ := List.range'_append_1 1 (j - 1) ((partsOf s).length - j)
      rw [h1, h2] at happ
      rw [← happ, h4, List.range'_succ]
      simp
    rw [hdecomp, List.foldl_append]
    simp only [List.foldl_cons, hq, if_true]
    rw [foldl_cand_none s _ ?_ (some (splitAtComma s j))]
    · intro i hi
      have hmem := List.mem_range'_1.mp hi
      exact hmax i (by omega) (by omega)
  · intro s h3 hnone
    rw [split_parties, dif_neg (by omega)]
    rw [foldl_cand_none s _ ?_ none]
    · intro i hi
      have hmem := List.mem_range'_1.mp hi
      exact hnone i (by omega) (by omega)

/-- C5 (witness): the amended theorem applied at
`"Korea, Republic of, Germany"` with last qualifying position 2. -/
theorem split_parties_c5_witness :
    split_parties "Korea, Republic of, Germany" =
      splitAtComma "Korea, Republic of, Germany" 2 :=
  split_parties_c5.2.2.1 "Korea, Republic of, Germany" 2 (by decide) (by decide)
    (by decide) (by decide)
    (fun i hi1 hi2 => by
      have hlen : (partsOf "Korea, Republic of, Germany").length = 3 := by decide
      omega)

/-! ### `retry_goto` (lines 98-109)

```python
async def retry_goto(page, url: str, retries: int = MAX_RETRIES):
    for attempt in range(1, retries + 1):
        try:
            await page.goto(url, timeout=PAGE_TIMEOUT, wait_until="domcontentloaded")
            return
        except Exception as exc:
            if attempt == retries:
                raise
            wait = 2 ** attempt
            log.warning("Navigation to %s failed (%s), retry in %ds…", url, exc, wait)
            await asyncio.sleep(wait)
```

The navigation is modelled as a function from the attempt number to an
`Except` outcome (`E` abstracts the exception type). The loop is rendered
with explicit fuel `retries - attempt + 1` (the attempts still available,
including the current one), so `attempt = retries` is `fuel = 1`. The model
returns the overall outcome, the number of times the navigation was invoked,
and the list of backoff waits slept (which is also the warning log).
-/

/-- The retry loop from attempt `attempt` with `fuel` attempts remaining. -/
def retryRun {E : Type} (op : ℕ → Except E Unit) (attempt : ℕ) :
    ℕ → Except E Unit × ℕ × List ℕ
  | 0 => (Except.ok (), 0, [])
  | fuel + 1 =>
    match op attempt with
    | Except.ok _ => (Except.ok (), 1, [])
    | Except.error e =>
      if fuel = 0 then (Except.error e, 1, [])
      else
        let r := retryRun op (attempt + 1) fuel
        (r.1, r.2.1 + 1, 2 ^ attempt :: r.2.2)

/-- `retry_goto`: run the navigation up to `retries` times starting at
attempt 1. -/
def retry_goto {E : Type} (op : ℕ → Except E Unit) (retries : ℕ) :
    Except E Unit × ℕ × List ℕ :=
  retryRun op 1 retries

/-- With at least one attempt available, the loop invokes the navigation at
least once. -/
theorem retryRun_pos {E : Type} (op : ℕ → Except E Unit) (a fuel : ℕ)
    (h : 1 ≤ fuel) : 1 ≤ (retryRun op a fuel).2.1 := by
  cases fuel with
  | zero => omega
  | succ f =>
    cases hop : op a with
    | ok u => simp [retryRun, hop]
    | error e =>
      by_cases hf : f = 0 <;> simp [retryRun, hop, hf]

/-- Exhaustive description of the retry loop: at most `fuel` invocations,
one backoff of `2 ^ k` after each failed non-final attempt `k`, every
attempt before the last one made failed, and if every available attempt
fails the error of the last attempt is propagated. -/
theorem retryRun_spec {E : Type} (op : ℕ → Except E Unit) :
    ∀ fuel attempt,
      (retryRun op attempt fuel).2.1 ≤ fuel ∧
      (retryRun op attempt fuel).2.2 =
        (List.range' attempt ((retryRun op attempt fuel).2.1 - 1)).map (fun k => 2 ^ k) ∧
      (∀ k, attempt ≤ k → k + 1 < attempt + (retryRun op attempt fuel).2.1 →
        ∃ e, op k = Except.error e) ∧
      (∀ f : ℕ → E, (∀ k, attempt ≤ k → k < attempt + fuel → op k = Except.error (f k)) →
        1 ≤ fuel → (retryRun op attempt fuel).1 = Except.error (f (attempt + fuel - 1))) := by
  intro fuel
  induction fuel with
  | zero =>
    intro attempt
    refine ⟨le_refl _, rfl, ?_, ?_⟩
    · intro k hk hlt
      simp only [retryRun] at hlt
      omega
    · intro f _ h1
      omega
  | succ fuel ih =>
    intro attempt
    cases hop : op attempt with
    | ok u =>
      refine ⟨?_, ?_, ?_, ?_⟩
      · simp [retryRun, hop]
      · simp [retryRun, hop]
      · intro k hk hlt
        simp only [retryRun, hop] at hlt
        omega
      · intro f hall _
        have hcon := hall attempt (le_refl _) (by omega)
        rw [hop] at hcon
        cases hcon
    | error e =>
      by_cases hf : fuel = 0
      · subst hf
        refine ⟨?_, ?_, ?_, ?_⟩
        · simp [retryRun, hop]
        · simp [retryRun, hop]
        · intro k hk hlt
          simp [retryRun, hop] at hlt
          omega
        · intro f hall _
          have hlast := hall attempt (le_refl _) (by omega)
          rw [hop] at hlast
          simp only [retryRun, hop, if_pos rfl]
          have harg : attempt + 1 - 1 = attempt := by omega
          rw [harg]
          exact hlast
      · obtain ⟨ih1, ih2, ih3, ih4⟩ := ih (attempt + 1)
        have hpos : 1 ≤ (retryRun op (attempt + 1) fuel).2.1 :=
          retryRun_pos op (attempt + 1) fuel (by omega)
        have hstep : retryRun op attempt (fuel + 1) =
            ((retryRun op (attempt + 1) fuel).1,
             (retryRun op (attempt + 1) fuel).2.1 + 1,
             2 ^ attempt :: (retryRun op (attempt + 1) fuel).2.2) := by
          simp [retryRun, hop, hf]
        refine ⟨?_, ?_, ?_, ?_⟩
        · rw [hstep]
          simpa using ih1
        · rw [hstep]
          simp only
          rw [ih2]
          have hn : (retryRun op (attempt + 1) fuel).2.1 + 1 - 1 =
              ((retryRun op (attempt + 1) fuel).2.1 - 1) + 1 := by omega
          rw [hn, List.range'_succ, List.map_cons]
        · intro k hk hlt
          rw [hstep] at hlt
          simp only at hlt
          by_cases hka : k = attempt
          · exact ⟨e, hka ▸ hop⟩
          · exact ih3 k (by omega) (by omega)
        · intro f hall _
          rw [hstep]
          simp only
          have hres := ih4 f (fun k hk hlt => hall k (by omega) (by omega)) (by omega)
          rw [hres]
          have harg : attempt + 1 + fuel - 1 = attempt + (fuel + 1) - 1 := by omega
          rw [harg]

/-- C6: `retry_goto` invokes the navigation at most `retries` times; after a
failure of attempt `k` with `k` below the attempts made it backs off `2 ^ k`
time units (base delay 2) and logs a warning; and when every one of the
`retries` attempts fails it propagates the last failure. -/
theorem retry_goto_c6 {E : Type} (op : ℕ → Except E Unit) (retries : ℕ)
    (hr : 1 ≤ retries) :
    (retry_goto op retries).2.1 ≤ retries ∧
    (retry_goto op retries).2.2 =
      (List.range' 1 ((retry_goto op retries).2.1 - 1)).map (fun k => 2 ^ k) ∧
    (∀ k, 1 ≤ k → k + 1 < 1 + (retry_goto op retries).2.1 →
      ∃ e, op k = Except.error e) ∧
    (∀ f : ℕ → E, (∀ k, 1 ≤ k → k ≤ retries → op k = Except.error (f k)) →
      (retry_goto op retries).1 = Except.error (f retries)) := by
  obtain ⟨h1, h2, h3, h4⟩ := retryRun_spec op retries 1
  refine ⟨h1, h2, h3, fun f hall => ?_⟩
  have hres := h4 f (fun k hk hlt => hall k hk (by omega)) hr
  have harg : 1 + retries - 1 = retries := by omega
  rw [harg] at hres
  exact hres

/-- C6 (witness): a navigation that always fails, with 3 retries: three
invocations, backoffs of `2` and `4`, and the last error propagated. -/
theorem retry_goto_c6_witness :
    (retry_goto (fun k => (Except.error k : Except ℕ Unit)) 3).2.1 ≤ 3 ∧
    (retry_goto (fun k => (Except.error k : Except ℕ Unit)) 3).2.2 =
      (List.range' 1 ((retry_goto (fun k => (Except.error k : Except ℕ Unit)) 3).2.1 - 1)).map
        (fun k => 2 ^ k) ∧
    (∀ k, 1 ≤ k →
      k + 1 < 1 + (retry_goto (fun k => (Except.error k : Except ℕ Unit)) 3).2.1 →
      ∃ e, (fun k => (Except.error k : Except ℕ Unit)) k = Except.error e) ∧
    (∀ f : ℕ → ℕ,
      (∀ k, 1 ≤ k → k ≤ 3 → (fun k => (Except.error k : Except ℕ Unit)) k = Except.error (f k)) →
      (retry_goto (fun k => (Except.error k : Except ℕ Unit)) 3).1 = Except.error (f 3)) :=
  retry_goto_c6 (fun k => (Except.error k : Except ℕ Unit)) 3 (by omega)

end ScrapeBits
